import Mathlib

/-!
Verification of the DOCX-to-PDF insert generator (src/main.py).

The development shallowly embeds the program: strings are Lean strings,
the relevant XML fragment of a table row is an explicit tree, the two PDF
libraries are modelled operationally (a canvas accumulating draw operations
for the overlay renderer, and an object heap of page objects for the page
compositor, so that the per-record re-parse discipline and its frame
property are expressible). Fallible code returns Except.
-/

/-! ## Python whitespace primitives used by str.strip and str.split -/

/-- Whitespace as recognized by Python str.split and str.strip
(ASCII whitespace, further control spaces, and the Unicode space
characters including U+00A0). -/
def pyIsSpace (c : Char) : Bool :=
  let n := c.toNat
  (9 ≤ n && n ≤ 13) || n == 32 || (28 ≤ n && n ≤ 31) || n == 0x85 ||
    n == 0xa0 || n == 0x1680 || (0x2000 ≤ n && n ≤ 0x200a) ||
    n == 0x2028 || n == 0x2029 || n == 0x202f || n == 0x205f || n == 0x3000

/-- Python str.strip on a character list: drop whitespace from both ends. -/
def pyStripList (l : List Char) : List Char :=
  ((l.dropWhile pyIsSpace).reverse.dropWhile pyIsSpace).reverse

/-- Python str.split with no separator: maximal runs of non-whitespace
characters, in order. The accumulator holds the current word reversed. -/
def pySplitAux : List Char → List Char → List (List Char)
  | [], acc => if acc.isEmpty then [] else [acc.reverse]
  | c :: cs, acc =>
    if pyIsSpace c then
      if acc.isEmpty then pySplitAux cs [] else acc.reverse :: pySplitAux cs []
    else pySplitAux cs (c :: acc)

def pySplit (l : List Char) : List (List Char) := pySplitAux l []

/-- Python single-space str.join over a list of words. -/
def joinSp : List (List Char) → List Char
  | [] => []
  | [w] => w
  | w :: ws => w ++ ' ' :: joinSp ws

def nbsp : Char := '\u00A0'

/-- src/main.py _norm: replace U+00A0 with a space, strip, split on
whitespace runs, join with single spaces. -/
def _norm (s : String) : String :=
  String.mk (joinSp (pySplit (pyStripList
    (s.data.map (fun c => if c = nbsp then ' ' else c)))))

/-! ## XML model for a table row (lxml fragment of the docx) -/

/-- An XML node: an element with a tag and children, or a text node.
Qualified OOXML tags in Clark notation are abbreviated to the w: prefix
form, e.g. w:tc for the table-cell tag. -/
inductive Xml where
  | elem (tag : String) (children : List Xml)
  | text (s : String)

instance : Inhabited Xml := ⟨Xml.text ""⟩

def wTc : String := "w:tc"
def wSdt : String := "w:sdt"
def wSdtContent : String := "w:sdtContent"
def wT : String := "w:t"

def Xml.isTcElem : Xml → Bool
  | Xml.elem t _ => t == wTc
  | Xml.text _ => false

/-- src/main.py _tcs_from_row_xml: scan the direct children of the w:tr
element; a w:tc child is taken as-is; a w:sdt child contributes the w:tc
elements reached by the XPath ./w:sdtContent/w:tc (direct w:tc children of
its direct w:sdtContent children, in document order); other children
contribute nothing. -/
def _tcs_from_row_xml (tr : Xml) : List Xml :=
  match tr with
  | Xml.text _ => []
  | Xml.elem _ children =>
    children.foldl
      (fun out child =>
        match child with
        | Xml.elem t kids =>
          if t == wTc then out ++ [child]
          else if t == wSdt then
            out ++ kids.flatMap (fun k =>
              match k with
              | Xml.elem kt kk =>
                if kt == wSdtContent then kk.filter Xml.isTcElem else []
              | Xml.text _ => [])
          else out
        | Xml.text _ => out)
      []

mutual
/-- Texts selected by the XPath .//w:t/text() below a node: every text node
whose parent element has the w:t tag, in document order. -/
def xmlTTexts : Xml → List String
  | Xml.text _ => []
  | Xml.elem t kids => xmlTTextsList t kids

def xmlTTextsList : String → List Xml → List String
  | _, [] => []
  | t, x :: xs =>
      (match x with
       | Xml.text s => if t == wT then [s] else []
       | Xml.elem _ _ => xmlTTexts x) ++ xmlTTextsList t xs
end

/-- src/main.py _text_from_tc: concatenation of every .//w:t/text() run
inside the cell node, in source order, with no separators. -/
def _text_from_tc (tc : Xml) : String :=
  String.join (xmlTTexts tc)

/-! ## Row reading and validation (read_rows_from_docx) -/

@[ext]
structure RowData where
  name : String
  greeting : String
  dear : String
deriving DecidableEq

structure Table where
  rows : List Xml

structure Docx where
  tables : List Table

def DOCX_TABLE_INDEX : Nat := 0
def HAS_HEADER_ROW : Bool := true
def SKIP_EMPTY_ROWS : Bool := true

/-- The fatal errors raised by read_rows_from_docx, with the data each
message carries (row numbers are the 1-based table row numbers that the
messages interpolate as i + 1). -/
inductive RowErr where
  | noTables
  | badTableIndex (tableCount : Nat)
  | tooFewCells (rowNum : Nat)
  | emptyName (rowNum : Nat)
  | emptyGreeting (rowNum : Nat)
  | emptyDear (rowNum : Nat)
  | noFilledRows
deriving DecidableEq

/-- The loop body of read_rows_from_docx over the data rows, carrying the
0-based table row index i of the first remaining row. -/
def readRowsAux : List Xml → Nat → Except RowErr (List RowData)
  | [], _ => Except.ok []
  | tr :: rest, i =>
    let tcs := _tcs_from_row_xml tr
    if tcs.length < 3 then Except.error (RowErr.tooFewCells (i + 1))
    else
      let name := _norm (_text_from_tc (tcs.getD 0 default))
      let greeting := _norm (_text_from_tc (tcs.getD 1 default))
      let dear := _norm (_text_from_tc (tcs.getD 2 default))
      if SKIP_EMPTY_ROWS && name == "" && greeting == "" && dear == "" then
        readRowsAux rest (i + 1)
      else if name == "" then Except.error (RowErr.emptyName (i + 1))
      else if greeting == "" then Except.error (RowErr.emptyGreeting (i + 1))
      else if dear == "" then Except.error (RowErr.emptyDear (i + 1))
      else (readRowsAux rest (i + 1)).map
        (fun out => RowData.mk name greeting dear :: out)

/-- src/main.py read_rows_from_docx. -/
def read_rows_from_docx (doc : Docx) : Except RowErr (List RowData) :=
  if doc.tables.isEmpty then Except.error RowErr.noTables
  else if DOCX_TABLE_INDEX ≥ doc.tables.length then
    Except.error (RowErr.badTableIndex doc.tables.length)
  else
    let table := doc.tables.getD DOCX_TABLE_INDEX ⟨[]⟩
    let start_idx := if HAS_HEADER_ROW then 1 else 0
    match readRowsAux (table.rows.drop start_idx) start_idx with
    | Except.error e => Except.error e
    | Except.ok out =>
      if out.isEmpty then Except.error RowErr.noFilledRows else Except.ok out

/-- The k-th normalized cell text of a row, as the loop reads it. -/
def rowField (tr : Xml) (k : Nat) : String :=
  _norm (_text_from_tc ((_tcs_from_row_xml tr).getD k default))

/-- A data row whose three normalized leading cells are all empty. -/
def rowBlank (tr : Xml) : Bool :=
  rowField tr 0 == "" && rowField tr 1 == "" && rowField tr 2 == ""

/-- A data row the loop passes without raising: at least 3 cells and either
fully blank or fully populated. -/
def rowOk (tr : Xml) : Bool :=
  3 ≤ (_tcs_from_row_xml tr).length &&
    (rowBlank tr ||
      (rowField tr 0 != "" && rowField tr 1 != "" && rowField tr 2 != ""))

/-! ## Overlay renderer model (reportlab canvas, make_overlay_pdf) -/

inductive Align where
  | left
  | center
deriving DecidableEq

/-- One canvas operation recorded on the current page. -/
inductive DrawOp where
  | saveState
  | restoreState
  | translate (x y : Rat)
  | rotate (deg : Rat)
  | setFillColorRGB (r g b : Rat)
  | setFont (fontName : String) (size : Rat)
  | drawString (x y : Rat) (text : String)
  | drawCentredString (x y : Rat) (text : String)
deriving DecidableEq

/-- One page of an overlay artifact: the page size given to the canvas and
the operations recorded for that page. -/
structure OverlayPage where
  width : Rat
  height : Rat
  ops : List DrawOp
deriving DecidableEq

instance : Inhabited OverlayPage := ⟨⟨0, 0, []⟩⟩

/-- The overlay artifact returned by make_overlay_pdf (the buffer contents,
kept structured: a deterministic function of the recorded pages). -/
structure OverlayPdf where
  pages : List OverlayPage
deriving DecidableEq

/-- The reportlab canvas: fixed page size, operations of the page being
drawn, and the pages already emitted by showPage. -/
structure Canvas where
  pageWidth : Rat
  pageHeight : Rat
  code : List DrawOp
  pages : List OverlayPage

def Canvas.op (c : Canvas) (o : DrawOp) : Canvas :=
  { c with code := c.code ++ [o] }

def Canvas.showPage (c : Canvas) : Canvas :=
  { c with code := [], pages := c.pages ++ [⟨c.pageWidth, c.pageHeight, c.code⟩] }

/-- canvas.save: flush a pending page, then emit the document. -/
def Canvas.saveDoc (c : Canvas) : OverlayPdf :=
  if c.code.isEmpty then ⟨c.pages⟩ else ⟨c.showPage.pages⟩

/-! Fixed process-wide configuration from src/main.py. -/

def FONT_NAME : String := "Montserrat"
def FONT_SIZE : Rat := 10
def TEXT_COLOR_RGB : Rat × Rat × Rat := (220, 0, 0)

structure LabelPos where
  x : Rat
  y : Rat
  rotate_deg : Rat
  align : Align

def SALUTATION_POS : LabelPos := ⟨75, 480, 90, Align.left⟩
def GREETING_POS : LabelPos := ⟨118, 500, 90, Align.left⟩

def SALUTATION_FORMAT (dear name _greeting : String) : String :=
  dear ++ " " ++ name ++ "!"
def GREETING_FORMAT (_dear _name greeting : String) : String :=
  greeting

/-- src/main.py draw_text_block: save, translate to the anchor, rotate if
the angle is nonzero, draw at the local origin by alignment, restore. -/
def draw_text_block (c : Canvas) (text : String) (x y rotate_deg : Rat)
    (align : Align) : Canvas :=
  let c := c.op DrawOp.saveState
  let c := c.op (DrawOp.translate x y)
  let c := if rotate_deg ≠ 0 then c.op (DrawOp.rotate rotate_deg) else c
  let c := match align with
    | Align.center => c.op (DrawOp.drawCentredString 0 0 text)
    | Align.left => c.op (DrawOp.drawString 0 0 text)
  c.op DrawOp.restoreState

/-- src/main.py make_overlay_pdf: a canvas sized (page_width, page_height),
fill color and font set once, the two labels drawn, one showPage, save. -/
def make_overlay_pdf (page_width page_height : Rat)
    (salutation_text greeting_text : String) : OverlayPdf :=
  let c : Canvas := ⟨page_width, page_height, [], []⟩
  let (r, g, b) := TEXT_COLOR_RGB
  let c := c.op (DrawOp.setFillColorRGB (r / 255) (g / 255) (b / 255))
  let c := c.op (DrawOp.setFont FONT_NAME FONT_SIZE)
  let c := draw_text_block c salutation_text SALUTATION_POS.x SALUTATION_POS.y
    SALUTATION_POS.rotate_deg SALUTATION_POS.align
  let c := draw_text_block c greeting_text GREETING_POS.x GREETING_POS.y
    GREETING_POS.rotate_deg GREETING_POS.align
  (c.showPage).saveDoc

/-! ## Page compositor model (pypdf reader and writer, generate_pdf)

Page objects parsed from a byte buffer are mutable and shared through
references; the model makes that explicit with an object heap addressed by
allocation order. Parsing the template bytes allocates fresh page objects;
the writer stores references; merge_page mutates the referenced object in
place. This is exactly the aliasing discipline the source works around by
re-parsing the template bytes for every record. -/

/-- A PDF page object: its media box size and its content items (the base
content of a template page, followed by any merged overlay operations). -/
structure PdfPage where
  width : Rat
  height : Rat
  items : List DrawOp
deriving DecidableEq

def emptyPage : PdfPage := ⟨0, 0, []⟩

instance : Inhabited PdfPage := ⟨emptyPage⟩

/-- The template artifact: the pages encoded in template.pdf, as values.
Every parse of the bytes yields fresh page objects with these contents. -/
structure Template where
  pages : List PdfPage

/-- The object heap: page objects addressed by allocation index. -/
structure Heap where
  objs : List PdfPage

def Heap.lookup (h : Heap) (id : Nat) : PdfPage :=
  h.objs.getD id emptyPage

/-- PdfReader over the template bytes: allocates one fresh page object per
template page and returns the references, in page order. -/
def parseTemplate (t : Template) (h : Heap) : Heap × List Nat :=
  (⟨h.objs ++ t.pages⟩, List.range' h.objs.length t.pages.length)

/-- pypdf merge_page: the overlay content is appended on top of the page
content; the page geometry is unchanged. -/
def mergePage (base : PdfPage) (ov : OverlayPage) : PdfPage :=
  { base with items := base.items ++ ov.ops }

/-- In-place merge through a page reference. -/
def Heap.mergeAt (h : Heap) (id : Nat) (ov : OverlayPage) : Heap :=
  ⟨h.objs.set id (mergePage (h.objs.getD id emptyPage) ov)⟩

/-- The writer state during generate_pdf: the heap of parsed page objects
and the references the writer holds, in append order. -/
structure GenState where
  heap : Heap
  writerIds : List Nat

/-- The overlay page rendered for one record at the reference page size. -/
def overlayPageFor (pw ph : Rat) (row : RowData) : OverlayPage :=
  (make_overlay_pdf pw ph
    (SALUTATION_FORMAT row.dear row.name row.greeting)
    (GREETING_FORMAT row.dear row.name row.greeting)).pages.getD 0 default

/-- The loop body of generate_pdf for one record: render the overlay,
re-parse the template bytes to get a fresh base page (page index 1), append
that page to the writer, and merge the overlay onto the page just
appended. -/
def processRow (t : Template) (pw ph : Rat) (s : GenState) (row : RowData) :
    GenState :=
  let salutation_text := SALUTATION_FORMAT row.dear row.name row.greeting
  let greeting_text := GREETING_FORMAT row.dear row.name row.greeting
  let overlay := make_overlay_pdf pw ph salutation_text greeting_text
  let overlay_page := overlay.pages.getD 0 default
  let parsed := parseTemplate t s.heap
  let fresh_base_id := parsed.2.getD 1 0
  let writerIds := s.writerIds ++ [fresh_base_id]
  GenState.mk (parsed.1.mergeAt fresh_base_id overlay_page) writerIds

inductive GenErr where
  | rowErr (e : RowErr)
  | templateTooShort
deriving DecidableEq

/-- src/main.py generate_pdf, with the docx rows and the template bytes as
inputs (file existence checks and the font registration are process I/O
with no effect on the produced pages and are not modelled): read and
validate the rows, parse the template once for the cover page and the
reference page size, append the cover page unmodified, then run the
per-record loop. The result is the final heap and the writer page
references, from which the output document is serialized. -/
def generate_pdf (t : Template) (doc : Docx) : Except GenErr GenState :=
  match read_rows_from_docx doc with
  | Except.error e => Except.error (GenErr.rowErr e)
  | Except.ok rows =>
    let parsed0 := parseTemplate t ⟨[]⟩
    if t.pages.length < 2 then Except.error GenErr.templateTooShort
    else
      let page1_id := parsed0.2.getD 0 0
      let base0 := parsed0.1.lookup (parsed0.2.getD 1 0)
      let page_width := base0.width
      let page_height := base0.height
      let s0 : GenState := GenState.mk parsed0.1 [page1_id]
      Except.ok (rows.foldl (processRow t page_width page_height) s0)

/-! ## Output naming (output_filename_from_docx) -/

/-- The current date in the process-local time zone, as
datetime.now(ZoneInfo(TZ_NAME)) yields it. -/
structure PyDate where
  year : Nat
  month : Nat
  day : Nat

def padZeroes (w : Nat) (n : Nat) : String :=
  let s := toString n
  String.mk (List.replicate (w - s.length) '0') ++ s

/-- os.path.basename: the part after the last slash. -/
def pyBasename (p : String) : String :=
  String.mk ((p.data.reverse.takeWhile (fun c => c ≠ '/')).reverse)

/-- The stem part of os.path.splitext on a basename: everything before the
last dot, except that a name consisting only of leading dots is kept. -/
def pySplitextStem (name : String) : String :=
  let l := name.data
  let ext := l.reverse.takeWhile (fun c => c ≠ '.')
  if ext.length = l.length then name
  else
    let stem := l.take (l.length - ext.length - 1)
    if stem.all (fun c => c = '.') && stem.length + 1 + ext.length = l.length
        && stem.length > 0 then name
    else if stem.isEmpty then name
    else String.mk stem

/-- Python str.isalnum for the characters this program meets: ASCII letters
and digits plus the Cyrillic block the source comment calls out. -/
def pyIsAlnum (c : Char) : Bool :=
  c.isAlpha || c.isDigit || (0x400 ≤ c.toNat && c.toNat ≤ 0x4ff)

/-- Python str.replace with a two-space pattern: one left-to-right pass
replacing non-overlapping double spaces by single spaces. -/
def replaceDoubleSpace : List Char → List Char
  | [] => []
  | [c] => [c]
  | c1 :: c2 :: rest =>
    if c1 = ' ' && c2 = ' ' then ' ' :: replaceDoubleSpace rest
    else c1 :: replaceDoubleSpace (c2 :: rest)

/-- src/main.py output_filename_from_docx: a sanitized stem is computed
from the input path but the returned name uses only the date and the fixed
suffix. -/
def output_filename_from_docx (now : PyDate) (docx_path : String) : String :=
  let stem := String.mk (pyStripList (pySplitextStem (pyBasename docx_path)).data)
  let safe_stem_chars := stem.data.filter
    (fun ch => pyIsAlnum ch || ch ∈ [' ', '_', '-'])
  let safe_stem := String.mk (pyStripList (replaceDoubleSpace safe_stem_chars))
  let _safe_stem := if safe_stem = "" then "Word" else safe_stem
  padZeroes 4 now.year ++ "_" ++ padZeroes 2 now.month ++ "_" ++
    padZeroes 2 now.day ++ "_Вкладыши.pdf"

/-! ## Claim-side characterization of the row unwrapping -/

/-- The cells the claim attributes to one direct child of a row: a direct
w:tc child contributes itself; a w:sdt child contributes the w:tc nodes
that are direct children of its direct w:sdtContent children; every other
child contributes nothing. -/
def rowChildCells : Xml → List Xml
  | Xml.elem t kids =>
    if t == wTc then [Xml.elem t kids]
    else if t == wSdt then
      kids.flatMap (fun k =>
        match k with
        | Xml.elem kt kk =>
          if kt == wSdtContent then kk.filter Xml.isTcElem else []
        | Xml.text _ => [])
    else []
  | Xml.text _ => []

/-! ## Spec-side normalization, for comparison with the source _norm -/

/-- Collapse whitespace runs: each maximal run of whitespace characters
becomes one ASCII space. The flag records whether the previous character
belonged to a whitespace run. -/
def collapseWsAux : Bool → List Char → List Char
  | _, [] => []
  | prevWs, c :: cs =>
    if pyIsSpace c then
      (if prevWs then collapseWsAux true cs
       else ' ' :: collapseWsAux true cs)
    else c :: collapseWsAux false cs

def trimLeadSp (l : List Char) : List Char := l.dropWhile pyIsSpace

def trimTrailSp (l : List Char) : List Char :=
  (l.reverse.dropWhile pyIsSpace).reverse

/-- The normalization rule as the spec words it: replace non-breaking
spaces with ordinary spaces, collapse every whitespace run to a single
ASCII space, and trim leading and trailing whitespace. -/
def normSpec (s : String) : String :=
  String.mk (trimTrailSp (trimLeadSp (collapseWsAux false
    (s.data.map (fun c => if c = nbsp then ' ' else c)))))

lemma foldl_flatMap_of_pointwise {α β : Type} (f : List β → α → List β)
    (g : α → List β) (hf : ∀ out x, f out x = out ++ g x) :
    ∀ (l : List α) (acc : List β), l.foldl f acc = acc ++ l.flatMap g := by
  intro l
  induction l with
  | nil => simp
  | cons c cs ih =>
    intro acc
    rw [List.foldl_cons, hf, ih]
    simp

lemma tcs_from_row_eq_flatMap (tag : String) (children : List Xml) :
    _tcs_from_row_xml (Xml.elem tag children) =
      children.flatMap rowChildCells := by
  show List.foldl _ [] _ = _
  rw [foldl_flatMap_of_pointwise _ rowChildCells _ children []]
  · simp
  · intro out child
    cases child with
    | text s => simp [rowChildCells]
    | elem t kids =>
      by_cases h1 : t = wTc
      · subst h1; simp [rowChildCells]
      · by_cases h2 : t = wSdt
        · subst h2; simp [rowChildCells, wTc, wSdt, h1]
        · simp [rowChildCells, h1, h2]

lemma flatMap_rowChildCells_of_tcs (cells : List Xml)
    (h : ∀ c ∈ cells, Xml.isTcElem c = true) :
    cells.flatMap rowChildCells = cells := by
  induction cells with
  | nil => simp
  | cons c cs ih =>
    have hc := h c (List.mem_cons_self c cs)
    cases c with
    | text s => simp [Xml.isTcElem] at hc
    | elem t kids =>
      simp only [Xml.isTcElem] at hc
      simp [rowChildCells, hc, ih fun x hx => h x (List.mem_cons_of_mem _ hx)]

/-- C10: the unwrapped cell list is exactly the direct w:tc children plus
the w:tc nodes one level inside a top-level content-control body, in
document order; any other row child, a content control nested inside
another content control, or a cell nested deeper than one level inside the
content body, contributes no cells. -/
theorem row_unwrap_exactly_direct_and_wrapped_cells :
    (∀ (tag : String) (children : List Xml),
      _tcs_from_row_xml (Xml.elem tag children) =
        children.flatMap rowChildCells) ∧
    _tcs_from_row_xml (Xml.elem "w:tr"
      [Xml.elem wSdt [Xml.elem wSdtContent
        [Xml.elem wSdt [Xml.elem wSdtContent [Xml.elem wTc []]]]]]) = [] ∧
    _tcs_from_row_xml (Xml.elem "w:tr"
      [Xml.elem wSdt [Xml.elem wSdtContent
        [Xml.elem "w:p" [Xml.elem wTc []]]]]) = [] ∧
    _tcs_from_row_xml (Xml.elem "w:tr"
      [Xml.elem "w:p" [Xml.elem wTc []]]) = [] := by
  refine ⟨tcs_from_row_eq_flatMap, rfl, rfl, rfl⟩

/-- C4: a row whose cells are wrapped in a content control unwraps to the
same ordered cell list as the row with the cells as direct children, hence
extracted cell texts are identical. -/
theorem content_control_row_unwraps_identically
    (cells : List Xml) (h : ∀ c ∈ cells, Xml.isTcElem c = true) :
    _tcs_from_row_xml (Xml.elem "w:tr"
        [Xml.elem wSdt [Xml.elem wSdtContent cells]]) =
      _tcs_from_row_xml (Xml.elem "w:tr" cells) ∧
    _tcs_from_row_xml (Xml.elem "w:tr" cells) = cells ∧
    (_tcs_from_row_xml (Xml.elem "w:tr"
        [Xml.elem wSdt [Xml.elem wSdtContent cells]])).map _text_from_tc =
      (_tcs_from_row_xml (Xml.elem "w:tr" cells)).map _text_from_tc := by
  have hplain : _tcs_from_row_xml (Xml.elem "w:tr" cells) = cells := by
    rw [tcs_from_row_eq_flatMap]
    exact flatMap_rowChildCells_of_tcs cells h
  have hwrap : _tcs_from_row_xml (Xml.elem "w:tr"
      [Xml.elem wSdt [Xml.elem wSdtContent cells]]) = cells := by
    rw [tcs_from_row_eq_flatMap]
    simp [rowChildCells, wTc, wSdt, wSdtContent, List.filter_eq_self.mpr h]
  refine ⟨hwrap.trans hplain.symm, hplain, by rw [hwrap, hplain]⟩

/-- C4 witness: a concrete three-cell row. -/
theorem content_control_row_unwraps_identically_witness :
    (_tcs_from_row_xml (Xml.elem "w:tr"
        [Xml.elem wSdt [Xml.elem wSdtContent
          [Xml.elem wTc [Xml.elem wT [Xml.text "a"]],
           Xml.elem wTc [Xml.elem wT [Xml.text "b"]],
           Xml.elem wTc [Xml.elem wT [Xml.text "c"]]]]]) =
      _tcs_from_row_xml (Xml.elem "w:tr"
        [Xml.elem wTc [Xml.elem wT [Xml.text "a"]],
         Xml.elem wTc [Xml.elem wT [Xml.text "b"]],
         Xml.elem wTc [Xml.elem wT [Xml.text "c"]]])) ∧
    (_tcs_from_row_xml (Xml.elem "w:tr"
        [Xml.elem wTc [Xml.elem wT [Xml.text "a"]],
         Xml.elem wTc [Xml.elem wT [Xml.text "b"]],
         Xml.elem wTc [Xml.elem wT [Xml.text "c"]]]) =
      [Xml.elem wTc [Xml.elem wT [Xml.text "a"]],
       Xml.elem wTc [Xml.elem wT [Xml.text "b"]],
       Xml.elem wTc [Xml.elem wT [Xml.text "c"]]]) :=
  ⟨(content_control_row_unwraps_identically
      [Xml.elem wTc [Xml.elem wT [Xml.text "a"]],
       Xml.elem wTc [Xml.elem wT [Xml.text "b"]],
       Xml.elem wTc [Xml.elem wT [Xml.text "c"]]]
      (by intro c hc; fin_cases hc <;> rfl)).1,
    (content_control_row_unwraps_identically
      [Xml.elem wTc [Xml.elem wT [Xml.text "a"]],
       Xml.elem wTc [Xml.elem wT [Xml.text "b"]],
       Xml.elem wTc [Xml.elem wT [Xml.text "c"]]]
      (by intro c hc; fin_cases hc <;> rfl)).2.1⟩

/-- C7: the overlay produced for any record is a single page sized exactly
to the target width and height; in particular a 200 by 400 reference size
yields a 200 by 400 overlay page. -/
theorem overlay_sized_to_reference_page :
    ∀ (w h : Rat) (s g : String),
      (make_overlay_pdf w h s g).pages.length = 1 ∧
      ((make_overlay_pdf w h s g).pages.getD 0 default).width = w ∧
      ((make_overlay_pdf w h s g).pages.getD 0 default).height = h ∧
      ((make_overlay_pdf 200 400 s g).pages.getD 0 default).width = 200 ∧
      ((make_overlay_pdf 200 400 s g).pages.getD 0 default).height = 400 := by
  intro w h s g
  exact ⟨rfl, rfl, rfl, rfl, rfl⟩

/-- C9: for a fixed current date the output filename is the same whatever
the input path is, and equals the date plus the fixed suffix; the sanitized
stem has no effect. -/
theorem output_name_depends_only_on_date :
    ∀ (d : PyDate) (p q : String),
      output_filename_from_docx d p = output_filename_from_docx d q ∧
      output_filename_from_docx d p =
        padZeroes 4 d.year ++ "_" ++ padZeroes 2 d.month ++ "_" ++
          padZeroes 2 d.day ++ "_Вкладыши.pdf" := by
  intro d p q
  exact ⟨rfl, rfl⟩

/-! ## Step lemmas for the row loop -/

lemma readRowsAux_cons_short (tr : Xml) (rest : List Xml) (i : Nat)
    (h : (_tcs_from_row_xml tr).length < 3) :
    readRowsAux (tr :: rest) i =
      Except.error (RowErr.tooFewCells (i + 1)) := by
  simp [readRowsAux, h]

lemma readRowsAux_cons_blank (tr : Xml) (rest : List Xml) (i : Nat)
    (h3 : ¬ (_tcs_from_row_xml tr).length < 3) (hb : rowBlank tr = true) :
    readRowsAux (tr :: rest) i = readRowsAux rest (i + 1) := by
  simp only [rowBlank, rowField, Bool.and_eq_true, beq_iff_eq,
    List.getD_eq_getElem?_getD] at hb
  simp [readRowsAux, h3, SKIP_EMPTY_ROWS, hb.1.1, hb.1.2, hb.2]

lemma readRowsAux_cons_full (tr : Xml) (rest : List Xml) (i : Nat)
    (h3 : ¬ (_tcs_from_row_xml tr).length < 3)
    (h0 : rowField tr 0 ≠ "") (h1 : rowField tr 1 ≠ "")
    (h2 : rowField tr 2 ≠ "") :
    readRowsAux (tr :: rest) i = (readRowsAux rest (i + 1)).map
      (fun out => RowData.mk (rowField tr 0) (rowField tr 1)
        (rowField tr 2) :: out) := by
  simp only [rowField, List.getD_eq_getElem?_getD] at h0 h1 h2
  simp [readRowsAux, h3, SKIP_EMPTY_ROWS, h0, h1, h2, rowField,
    List.getD_eq_getElem?_getD]

lemma readRowsAux_cons_noName (tr : Xml) (rest : List Xml) (i : Nat)
    (h3 : ¬ (_tcs_from_row_xml tr).length < 3)
    (h0 : rowField tr 0 = "") (h1 : rowField tr 1 ≠ "")
    (h2 : rowField tr 2 ≠ "") :
    readRowsAux (tr :: rest) i =
      Except.error (RowErr.emptyName (i + 1)) := by
  simp only [rowField, List.getD_eq_getElem?_getD] at h0 h1 h2
  simp [readRowsAux, h3, SKIP_EMPTY_ROWS, h0, h1, h2]

lemma readRowsAux_cons_noGreeting (tr : Xml) (rest : List Xml) (i : Nat)
    (h3 : ¬ (_tcs_from_row_xml tr).length < 3)
    (h0 : rowField tr 0 ≠ "") (h1 : rowField tr 1 = "")
    (h2 : rowField tr 2 ≠ "") :
    readRowsAux (tr :: rest) i =
      Except.error (RowErr.emptyGreeting (i + 1)) := by
  simp only [rowField, List.getD_eq_getElem?_getD] at h0 h1 h2
  simp [readRowsAux, h3, SKIP_EMPTY_ROWS, h0, h1, h2]

lemma readRowsAux_cons_noDear (tr : Xml) (rest : List Xml) (i : Nat)
    (h3 : ¬ (_tcs_from_row_xml tr).length < 3)
    (h0 : rowField tr 0 ≠ "") (h1 : rowField tr 1 ≠ "")
    (h2 : rowField tr 2 = "") :
    readRowsAux (tr :: rest) i =
      Except.error (RowErr.emptyDear (i + 1)) := by
  simp only [rowField, List.getD_eq_getElem?_getD] at h0 h1 h2
  simp [readRowsAux, h3, SKIP_EMPTY_ROWS, h0, h1, h2]

/-- Rows that validate cleanly pass errors raised further down through
unchanged, with the row index advanced by the prefix length. -/
lemma readRowsAux_append_ok (pre : List Xml) :
    ∀ (i : Nat) (rest : List Xml) (e : RowErr),
      (∀ r ∈ pre, rowOk r = true) →
      readRowsAux rest (i + pre.length) = Except.error e →
      readRowsAux (pre ++ rest) i = Except.error e := by
  induction pre with
  | nil => intro i rest e _ h; simpa using h
  | cons r pre ih =>
    intro i rest e hok herr
    have hr := hok r (List.mem_cons_self r pre)
    simp only [rowOk, Bool.and_eq_true, Bool.or_eq_true, decide_eq_true_eq,
      Bool.and_eq_true, bne_iff_ne] at hr
    have h3 : ¬ (_tcs_from_row_xml r).length < 3 := by omega
    have hrest : readRowsAux rest ((i + 1) + pre.length) = Except.error e := by
      have : i + (r :: pre).length = (i + 1) + pre.length := by
        simp; omega
      rwa [this] at herr
    have htail := ih (i + 1) rest e
      (fun x hx => hok x (List.mem_cons_of_mem r hx)) hrest
    rcases hr.2 with hb | hfull
    · rw [List.cons_append, readRowsAux_cons_blank r _ i h3 hb, htail]
    · rw [List.cons_append,
        readRowsAux_cons_full r _ i h3 hfull.1.1 hfull.1.2 hfull.2, htail]
      rfl

/-- C5: with every earlier data row clean, a data row that unwraps to fewer
than 3 cells makes extraction fail with the fatal too-few-cells error
carrying the 1-based number of that row, so no record sequence is
produced. -/
theorem short_row_aborts_with_row_number (doc : Docx) (tbl : Table)
    (mts : List Table) (hdr : Xml) (pre post : List Xml) (tr : Xml)
    (htab : doc.tables = tbl :: mts)
    (hrows : tbl.rows = hdr :: (pre ++ tr :: post))
    (hok : ∀ r ∈ pre, rowOk r = true)
    (hshort : (_tcs_from_row_xml tr).length < 3) :
    read_rows_from_docx doc =
      Except.error (RowErr.tooFewCells (pre.length + 2)) := by
  have hstep : readRowsAux (tr :: post) (1 + pre.length) =
      Except.error (RowErr.tooFewCells (pre.length + 2)) := by
    rw [readRowsAux_cons_short _ _ _ hshort,
      show 1 + pre.length + 1 = pre.length + 2 from by omega]
  have hmain := readRowsAux_append_ok pre 1 (tr :: post) _ hok hstep
  simp [read_rows_from_docx, htab, hrows, DOCX_TABLE_INDEX, HAS_HEADER_ROW,
    hmain]

/-- C5 witness: a header row, one clean data row, then a two-cell data row
in table row 3. -/
theorem short_row_aborts_with_row_number_witness :
    (∀ r ∈ [Xml.elem "w:tr" [Xml.elem wTc [Xml.elem wT [Xml.text "Ivanov"]],
        Xml.elem wTc [Xml.elem wT [Xml.text "Birthday"]],
        Xml.elem wTc [Xml.elem wT [Xml.text "Dear"]]]], rowOk r = true) ∧
    (_tcs_from_row_xml (Xml.elem "w:tr"
      [Xml.elem wTc [Xml.elem wT [Xml.text "a"]],
       Xml.elem wTc [Xml.elem wT [Xml.text "b"]]])).length < 3 ∧
    read_rows_from_docx (Docx.mk [Table.mk
      [Xml.elem "w:tr" [Xml.elem wTc [Xml.elem wT [Xml.text "Name"]],
        Xml.elem wTc [Xml.elem wT [Xml.text "Greeting"]],
        Xml.elem wTc [Xml.elem wT [Xml.text "Mode"]]],
       Xml.elem "w:tr" [Xml.elem wTc [Xml.elem wT [Xml.text "Ivanov"]],
        Xml.elem wTc [Xml.elem wT [Xml.text "Birthday"]],
        Xml.elem wTc [Xml.elem wT [Xml.text "Dear"]]],
       Xml.elem "w:tr" [Xml.elem wTc [Xml.elem wT [Xml.text "a"]],
        Xml.elem wTc [Xml.elem wT [Xml.text "b"]]]]]) =
      Except.error (RowErr.tooFewCells 3) :=
  ⟨by decide, by decide,
    short_row_aborts_with_row_number _ _ _ _
      [Xml.elem "w:tr" [Xml.elem wTc [Xml.elem wT [Xml.text "Ivanov"]],
        Xml.elem wTc [Xml.elem wT [Xml.text "Birthday"]],
        Xml.elem wTc [Xml.elem wT [Xml.text "Dear"]]]] []
      (Xml.elem "w:tr" [Xml.elem wTc [Xml.elem wT [Xml.text "a"]],
        Xml.elem wTc [Xml.elem wT [Xml.text "b"]]])
      rfl rfl (by decide) (by decide)⟩

/-- A clean data-row prefix followed by an erroring row makes the whole
extraction return that error. -/
lemma read_rows_error_at (doc : Docx) (tbl : Table) (mts : List Table)
    (hdr : Xml) (pre post : List Xml) (tr : Xml) (e : RowErr)
    (htab : doc.tables = tbl :: mts)
    (hrows : tbl.rows = hdr :: (pre ++ tr :: post))
    (hok : ∀ r ∈ pre, rowOk r = true)
    (hstep : readRowsAux (tr :: post) (1 + pre.length) = Except.error e) :
    read_rows_from_docx doc = Except.error e := by
  have hmain := readRowsAux_append_ok pre 1 (tr :: post) _ hok hstep
  simp [read_rows_from_docx, htab, hrows, DOCX_TABLE_INDEX, HAS_HEADER_ROW,
    hmain]

/-- C6: a data row with at least 3 cells whose three normalized fields are
all empty is skipped without error and contributes no record; a row with
exactly one empty field aborts the extraction with the fatal error naming
that field and the 1-based row number. -/
theorem blank_row_skipped_and_single_missing_field_fatal :
    (∀ (post : List Xml) (i : Nat) (tr : Xml),
      3 ≤ (_tcs_from_row_xml tr).length → rowBlank tr = true →
      readRowsAux (tr :: post) i = readRowsAux post (i + 1)) ∧
    (∀ (doc : Docx) (tbl : Table) (mts : List Table) (hdr : Xml)
      (pre post : List Xml) (tr : Xml),
      doc.tables = tbl :: mts → tbl.rows = hdr :: (pre ++ tr :: post) →
      (∀ r ∈ pre, rowOk r = true) → 3 ≤ (_tcs_from_row_xml tr).length →
      rowField tr 0 = "" → rowField tr 1 ≠ "" → rowField tr 2 ≠ "" →
      read_rows_from_docx doc =
        Except.error (RowErr.emptyName (pre.length + 2))) ∧
    (∀ (doc : Docx) (tbl : Table) (mts : List Table) (hdr : Xml)
      (pre post : List Xml) (tr : Xml),
      doc.tables = tbl :: mts → tbl.rows = hdr :: (pre ++ tr :: post) →
      (∀ r ∈ pre, rowOk r = true) → 3 ≤ (_tcs_from_row_xml tr).length →
      rowField tr 0 ≠ "" → rowField tr 1 = "" → rowField tr 2 ≠ "" →
      read_rows_from_docx doc =
        Except.error (RowErr.emptyGreeting (pre.length + 2))) ∧
    (∀ (doc : Docx) (tbl : Table) (mts : List Table) (hdr : Xml)
      (pre post : List Xml) (tr : Xml),
      doc.tables = tbl :: mts → tbl.rows = hdr :: (pre ++ tr :: post) →
      (∀ r ∈ pre, rowOk r = true) → 3 ≤ (_tcs_from_row_xml tr).length →
      rowField tr 0 ≠ "" → rowField tr 1 ≠ "" → rowField tr 2 = "" →
      read_rows_from_docx doc =
        Except.error (RowErr.emptyDear (pre.length + 2))) := by
  refine ⟨?_, ?_, ?_, ?_⟩
  · intro post i tr h3 hb
    exact readRowsAux_cons_blank tr post i (by omega) hb
  · intro doc tbl mts hdr pre post tr htab hrows hok h3 h0 h1 h2
    refine read_rows_error_at doc tbl mts hdr pre post tr _ htab hrows hok ?_
    rw [readRowsAux_cons_noName tr post _ (by omega) h0 h1 h2,
      show 1 + pre.length + 1 = pre.length + 2 from by omega]
  · intro doc tbl mts hdr pre post tr htab hrows hok h3 h0 h1 h2
    refine read_rows_error_at doc tbl mts hdr pre post tr _ htab hrows hok ?_
    rw [readRowsAux_cons_noGreeting tr post _ (by omega) h0 h1 h2,
      show 1 + pre.length + 1 = pre.length + 2 from by omega]
  · intro doc tbl mts hdr pre post tr htab hrows hok h3 h0 h1 h2
    refine read_rows_error_at doc tbl mts hdr pre post tr _ htab hrows hok ?_
    rw [readRowsAux_cons_noDear tr post _ (by omega) h0 h1 h2,
      show 1 + pre.length + 1 = pre.length + 2 from by omega]

/-- C6 witness: a fully blank row is skipped; three one-field-missing rows
raise the three field errors for table row 2. -/
theorem blank_row_skipped_and_single_missing_field_fatal_witness :
    readRowsAux [Xml.elem "w:tr"
        [Xml.elem wTc [], Xml.elem wTc [], Xml.elem wTc []]] 5 =
      readRowsAux [] 6 ∧
    read_rows_from_docx (Docx.mk [Table.mk
      [Xml.elem "w:tr" [Xml.elem wTc [Xml.elem wT [Xml.text "Name"]],
        Xml.elem wTc [Xml.elem wT [Xml.text "Greeting"]],
        Xml.elem wTc [Xml.elem wT [Xml.text "Mode"]]],
       Xml.elem "w:tr" [Xml.elem wTc [],
        Xml.elem wTc [Xml.elem wT [Xml.text "Birthday"]],
        Xml.elem wTc [Xml.elem wT [Xml.text "Dear"]]]]]) =
      Except.error (RowErr.emptyName 2) ∧
    read_rows_from_docx (Docx.mk [Table.mk
      [Xml.elem "w:tr" [Xml.elem wTc [Xml.elem wT [Xml.text "Name"]],
        Xml.elem wTc [Xml.elem wT [Xml.text "Greeting"]],
        Xml.elem wTc [Xml.elem wT [Xml.text "Mode"]]],
       Xml.elem "w:tr" [Xml.elem wTc [Xml.elem wT [Xml.text "Ivanov"]],
        Xml.elem wTc [],
        Xml.elem wTc [Xml.elem wT [Xml.text "Dear"]]]]]) =
      Except.error (RowErr.emptyGreeting 2) ∧
    read_rows_from_docx (Docx.mk [Table.mk
      [Xml.elem "w:tr" [Xml.elem wTc [Xml.elem wT [Xml.text "Name"]],
        Xml.elem wTc [Xml.elem wT [Xml.text "Greeting"]],
        Xml.elem wTc [Xml.elem wT [Xml.text "Mode"]]],
       Xml.elem "w:tr" [Xml.elem wTc [Xml.elem wT [Xml.text "Ivanov"]],
        Xml.elem wTc [Xml.elem wT [Xml.text "Birthday"]],
        Xml.elem wTc []]]]) =
      Except.error (RowErr.emptyDear 2) :=
  ⟨blank_row_skipped_and_single_missing_field_fatal.1 [] 5
      (Xml.elem "w:tr" [Xml.elem wTc [], Xml.elem wTc [], Xml.elem wTc []])
      (by decide) (by decide),
    blank_row_skipped_and_single_missing_field_fatal.2.1 _ _ _ _ [] []
      (Xml.elem "w:tr" [Xml.elem wTc [],
        Xml.elem wTc [Xml.elem wT [Xml.text "Birthday"]],
        Xml.elem wTc [Xml.elem wT [Xml.text "Dear"]]])
      rfl rfl (by decide) (by decide) (by decide) (by decide) (by decide),
    blank_row_skipped_and_single_missing_field_fatal.2.2.1 _ _ _ _ [] []
      (Xml.elem "w:tr" [Xml.elem wTc [Xml.elem wT [Xml.text "Ivanov"]],
        Xml.elem wTc [],
        Xml.elem wTc [Xml.elem wT [Xml.text "Dear"]]])
      rfl rfl (by decide) (by decide) (by decide) (by decide) (by decide),
    blank_row_skipped_and_single_missing_field_fatal.2.2.2 _ _ _ _ [] []
      (Xml.elem "w:tr" [Xml.elem wTc [Xml.elem wT [Xml.text "Ivanov"]],
        Xml.elem wTc [Xml.elem wT [Xml.text "Birthday"]],
        Xml.elem wTc []])
      rfl rfl (by decide) (by decide) (by decide) (by decide) (by decide)⟩

/-! ## Per-record compositor step -/

lemma range'_getD_zero (a n : Nat) (h : 1 ≤ n) :
    (List.range' a n).getD 0 0 = a := by
  rw [List.getD_eq_getElem?_getD, List.getElem?_range' a 1 (by omega)]
  simp

lemma range'_getD_one (a n : Nat) (h : 2 ≤ n) :
    (List.range' a n).getD 1 0 = a + 1 := by
  rw [List.getD_eq_getElem?_getD, List.getElem?_range' a 1 (by omega)]
  simp

/-- What one loop iteration of generate_pdf does to the writer state: the
writer gains a reference to the second page of a freshly parsed template
copy, every page object that existed before is untouched, and the new page
object is the template reference page with exactly this record overlay
merged on top. -/
lemma processRow_spec (t : Template) (pw ph : Rat) (s : GenState)
    (row : RowData) (h2 : 2 ≤ t.pages.length) :
    (processRow t pw ph s row).writerIds =
      s.writerIds ++ [s.heap.objs.length + 1] ∧
    (processRow t pw ph s row).heap.objs.length =
      s.heap.objs.length + t.pages.length ∧
    (∀ id, id < s.heap.objs.length →
      (processRow t pw ph s row).heap.lookup id = s.heap.lookup id) ∧
    (processRow t pw ph s row).heap.lookup (s.heap.objs.length + 1) =
      mergePage (t.pages.getD 1 emptyPage) (overlayPageFor pw ph row) := by
  have hid : (List.range' s.heap.objs.length t.pages.length)[1]?.getD 0 =
      s.heap.objs.length + 1 := by
    rw [List.getElem?_range' _ 1 (by omega)]
    simp
  refine ⟨?_, ?_, ?_, ?_⟩
  · simp only [processRow, parseTemplate, List.getD_eq_getElem?_getD, hid]
  · simp only [processRow, parseTemplate, Heap.mergeAt,
      List.getD_eq_getElem?_getD, hid]
    simp
  · intro id hidlt
    simp only [processRow, parseTemplate, Heap.mergeAt, Heap.lookup,
      List.getD_eq_getElem?_getD, hid]
    rw [List.getElem?_set_ne (by omega),
      List.getElem?_append_left (by omega)]
  · simp only [processRow, parseTemplate, Heap.mergeAt, Heap.lookup,
      List.getD_eq_getElem?_getD, hid]
    rw [List.getElem?_set_eq_of_lt _ (by simp; omega)]
    rw [List.getElem?_append_right (by omega)]
    simp only [Nat.add_sub_cancel_left, overlayPageFor,
      List.getD_eq_getElem?_getD, Option.getD_some]

/-- C2: each record is merged onto the second page of a fresh re-parse of
the stored template bytes, and that merge changes only the page appended
for this record: the cover page and every page object already present,
including all pages appended for earlier records, are unchanged. -/
theorem record_merge_uses_fresh_base_and_preserves_prior_pages
    (t : Template) (pw ph : Rat) (s : GenState) (row : RowData)
    (h2 : 2 ≤ t.pages.length) :
    (processRow t pw ph s row).writerIds =
      s.writerIds ++ [s.heap.objs.length + 1] ∧
    (∀ id, id < s.heap.objs.length →
      (processRow t pw ph s row).heap.lookup id = s.heap.lookup id) ∧
    (processRow t pw ph s row).heap.lookup (s.heap.objs.length + 1) =
      mergePage (t.pages.getD 1 emptyPage) (overlayPageFor pw ph row) := by
  obtain ⟨h1, _, h3, h4⟩ := processRow_spec t pw ph s row h2
  exact ⟨h1, h3, h4⟩

/-- C2 witness: one step on a two-page template from the post-cover state. -/
theorem record_merge_uses_fresh_base_and_preserves_prior_pages_witness :
    2 ≤ (Template.mk [PdfPage.mk 200 400 [],
        PdfPage.mk 200 400 [DrawOp.saveState]]).pages.length ∧
    ((processRow (Template.mk [PdfPage.mk 200 400 [],
          PdfPage.mk 200 400 [DrawOp.saveState]]) 200 400
        (GenState.mk (Heap.mk [PdfPage.mk 200 400 [],
          PdfPage.mk 200 400 [DrawOp.saveState]]) [0])
        (RowData.mk "Ivanov" "Birthday" "Dear")).writerIds =
      [0] ++ [3] ∧
    (∀ id, id < 2 →
      (processRow (Template.mk [PdfPage.mk 200 400 [],
          PdfPage.mk 200 400 [DrawOp.saveState]]) 200 400
        (GenState.mk (Heap.mk [PdfPage.mk 200 400 [],
          PdfPage.mk 200 400 [DrawOp.saveState]]) [0])
        (RowData.mk "Ivanov" "Birthday" "Dear")).heap.lookup id =
      (Heap.mk [PdfPage.mk 200 400 [],
        PdfPage.mk 200 400 [DrawOp.saveState]]).lookup id) ∧
    (processRow (Template.mk [PdfPage.mk 200 400 [],
          PdfPage.mk 200 400 [DrawOp.saveState]]) 200 400
        (GenState.mk (Heap.mk [PdfPage.mk 200 400 [],
          PdfPage.mk 200 400 [DrawOp.saveState]]) [0])
        (RowData.mk "Ivanov" "Birthday" "Dear")).heap.lookup 3 =
      mergePage ((Template.mk [PdfPage.mk 200 400 [],
          PdfPage.mk 200 400 [DrawOp.saveState]]).pages.getD 1 emptyPage)
        (overlayPageFor 200 400 (RowData.mk "Ivanov" "Birthday" "Dear"))) :=
  ⟨by decide,
    record_merge_uses_fresh_base_and_preserves_prior_pages
      (Template.mk [PdfPage.mk 200 400 [],
        PdfPage.mk 200 400 [DrawOp.saveState]]) 200 400
      (GenState.mk (Heap.mk [PdfPage.mk 200 400 [],
        PdfPage.mk 200 400 [DrawOp.saveState]]) [0])
      (RowData.mk "Ivanov" "Birthday" "Dear") (by decide)⟩

/-- Running the record loop from any valid writer state appends one page
reference per record; old page objects keep their contents and each new
page is the fresh template reference page with that record overlay. -/
lemma foldl_processRow_spec (t : Template) (pw ph : Rat)
    (h2 : 2 ≤ t.pages.length) :
    ∀ (rows : List RowData) (s : GenState),
      (∀ id ∈ s.writerIds, id < s.heap.objs.length) →
      ∃ newIds : List Nat,
        (rows.foldl (processRow t pw ph) s).writerIds =
          s.writerIds ++ newIds ∧
        newIds.length = rows.length ∧
        (∀ id ∈ s.writerIds,
          (rows.foldl (processRow t pw ph) s).heap.lookup id =
            s.heap.lookup id) ∧
        (∀ id ∈ s.writerIds ++ newIds,
          id < (rows.foldl (processRow t pw ph) s).heap.objs.length) ∧
        (∀ i, i < rows.length →
          (rows.foldl (processRow t pw ph) s).heap.lookup
              (newIds.getD i 0) =
            mergePage (t.pages.getD 1 emptyPage)
              (overlayPageFor pw ph (rows.getD i (RowData.mk "" "" "")))) := by
  intro rows
  induction rows with
  | nil =>
    intro s hinv
    exact ⟨[], by simp, rfl, fun id _ => rfl, by simpa using hinv, by simp⟩
  | cons row rest ih =>
    intro s hinv
    obtain ⟨hw, hlen, hpres, hnew⟩ := processRow_spec t pw ph s row h2
    have hinv' : ∀ id ∈ (processRow t pw ph s row).writerIds,
        id < (processRow t pw ph s row).heap.objs.length := by
      intro id hid
      rw [hw] at hid
      rw [hlen]
      rcases List.mem_append.mp hid with h | h
      · have := hinv id h
        omega
      · simp at h
        omega
    obtain ⟨newIds, hw2, hlen2, hpres2, hbound2, hcontent2⟩ :=
      ih (processRow t pw ph s row) hinv'
    refine ⟨(s.heap.objs.length + 1) :: newIds, ?_, ?_, ?_, ?_, ?_⟩
    · simp only [List.foldl_cons, hw2, hw]
      simp
    · simp [hlen2]
    · intro id hid
      have h1 : id ∈ (processRow t pw ph s row).writerIds := by
        rw [hw]
        exact List.mem_append_left _ hid
      simp only [List.foldl_cons]
      rw [hpres2 id h1, hpres id (hinv id hid)]
    · intro id hid
      have hm : id ∈ (processRow t pw ph s row).writerIds ++ newIds := by
        rw [hw]
        simpa using hid
      simpa only [List.foldl_cons] using hbound2 id hm
    · intro i hi
      cases i with
      | zero =>
        have hmem : s.heap.objs.length + 1 ∈
            (processRow t pw ph s row).writerIds := by
          rw [hw]
          simp
        simp only [List.foldl_cons, List.getD_cons_zero]
        rw [hpres2 _ hmem, hnew]
      | succ j =>
        have hj : j < rest.length := by
          simpa using hi
        simp only [List.foldl_cons, List.getD_cons_succ]
        rw [hcontent2 j hj]

/-- A successful row read yields exactly one record per non-blank data
row. -/
lemma readRowsAux_ok_length :
    ∀ (l : List Xml) (i : Nat) (out : List RowData),
      readRowsAux l i = Except.ok out →
      out.length = l.countP (fun tr => !(rowBlank tr)) := by
  intro l
  induction l with
  | nil =>
    intro i out h
    simp only [readRowsAux, Except.ok.injEq] at h
    subst h
    simp
  | cons tr rest ih =>
    intro i out h
    simp only [readRowsAux] at h
    split at h
    · exact absurd h (by simp)
    · split at h
      next hb =>
        have hblank : rowBlank tr = true := by
          simp only [SKIP_EMPTY_ROWS, Bool.true_and, Bool.and_eq_true,
            beq_iff_eq] at hb
          simp only [rowBlank, rowField, Bool.and_eq_true, beq_iff_eq]
          exact ⟨⟨hb.1.1, hb.1.2⟩, hb.2⟩
        rw [List.countP_cons]
        simp [hblank, ih _ _ h]
      next hb =>
        split at h
        · exact absurd h (by simp)
        next hn =>
          split at h
          · exact absurd h (by simp)
          next hg =>
            split at h
            · exact absurd h (by simp)
            next hd =>
              cases hrest : readRowsAux rest (i + 1) with
              | error e =>
                rw [hrest] at h
                exact absurd h (by simp [Except.map])
              | ok out' =>
                rw [hrest] at h
                simp only [Except.map, Except.ok.injEq] at h
                subst h
                have hf0 : (rowField tr 0 == "") = false := by
                  simp only [rowField]
                  exact Bool.eq_false_iff.mpr hn
                have hnb : (!(rowBlank tr)) = true := by
                  simp [rowBlank, hf0]
                rw [List.countP_cons]
                simp [hnb, ih _ _ hrest]

/-- A successful read comes from the row loop over the first table with
the header dropped, starting at table row index 1. -/
lemma read_rows_ok_inv (doc : Docx) (rows : List RowData)
    (h : read_rows_from_docx doc = Except.ok rows) :
    readRowsAux ((doc.tables.getD 0 (Table.mk [])).rows.drop 1) 1 =
      Except.ok rows := by
  simp only [read_rows_from_docx, DOCX_TABLE_INDEX, HAS_HEADER_ROW,
    if_true] at h
  split at h
  · exact absurd h (by simp)
  · split at h
    · exact absurd h (by simp)
    · split at h
      next e heq => exact absurd h (by simp)
      next out heq =>
        split at h
        · exact absurd h (by simp)
        · simp only [Except.ok.injEq] at h
          subst h
          exact heq

/-- C1: on a validated document and a well-formed template, generation
succeeds and the writer holds exactly 1 + N page references, N being the
number of non-blank data rows: first the template cover page unmodified,
then one generated page per record in source row order, each being the
reference page merged with that record overlay. -/
theorem generate_pdf_emits_cover_then_one_page_per_record
    (t : Template) (doc : Docx) (rows : List RowData)
    (hrows : read_rows_from_docx doc = Except.ok rows)
    (h2 : 2 ≤ t.pages.length) :
    ∃ res : GenState, generate_pdf t doc = Except.ok res ∧
      res.writerIds.length = 1 + rows.length ∧
      rows.length = ((doc.tables.getD 0 (Table.mk [])).rows.drop 1).countP
        (fun tr => !(rowBlank tr)) ∧
      res.heap.lookup (res.writerIds.getD 0 0) = t.pages.getD 0 emptyPage ∧
      (∀ i, i < rows.length →
        res.heap.lookup (res.writerIds.getD (i + 1) 0) =
          mergePage (t.pages.getD 1 emptyPage)
            (overlayPageFor (t.pages.getD 1 emptyPage).width
              (t.pages.getD 1 emptyPage).height
              (rows.getD i (RowData.mk "" "" "")))) := by
  have e0 : (List.range' 0 t.pages.length)[0]?.getD 0 = 0 := by
    rw [List.getElem?_range' _ 1 (by omega)]
    simp
  have e1 : (List.range' 0 t.pages.length)[1]?.getD 0 = 1 := by
    rw [List.getElem?_range' _ 1 (by omega)]
    simp
  have hgen : generate_pdf t doc = Except.ok
      (rows.foldl (processRow t (t.pages.getD 1 emptyPage).width
        (t.pages.getD 1 emptyPage).height)
        (GenState.mk (Heap.mk t.pages) [0])) := by
    simp only [generate_pdf, hrows, parseTemplate, List.nil_append,
      List.length_nil, List.getD_eq_getElem?_getD, e0, e1]
    rw [if_neg (by omega)]
    simp only [Heap.lookup, List.getD_eq_getElem?_getD]
  obtain ⟨newIds, hw, hlen, hpres, hbound, hcontent⟩ :=
    foldl_processRow_spec t (t.pages.getD 1 emptyPage).width
      (t.pages.getD 1 emptyPage).height h2 rows
      (GenState.mk (Heap.mk t.pages) [0])
      (by intro id hid; simp at hid; subst hid; show 0 < t.pages.length; omega)
  refine ⟨_, hgen, ?_, ?_, ?_, ?_⟩
  · rw [hw]
    simp [hlen]
    omega
  · exact readRowsAux_ok_length _ _ _ (read_rows_ok_inv doc rows hrows)
  · rw [hw]
    have hz : (((0 : Nat) :: newIds)).getD 0 0 = 0 := rfl
    rw [show ([0] ++ newIds : List Nat) = 0 :: newIds from rfl, hz]
    rw [hpres 0 (by simp)]
    simp [Heap.lookup]
  · intro i hi
    rw [hw]
    rw [show ([0] ++ newIds : List Nat) = 0 :: newIds from rfl,
      List.getD_cons_succ]
    exact hcontent i hi

/-- C1 witness: a header plus two populated data rows on a two-page
template. -/
theorem generate_pdf_emits_cover_then_one_page_per_record_witness :
    ∃ res : GenState,
      generate_pdf (Template.mk [PdfPage.mk 200 400 [],
          PdfPage.mk 200 400 [DrawOp.saveState]])
        (Docx.mk [Table.mk
          [Xml.elem "w:tr" [Xml.elem wTc [Xml.elem wT [Xml.text "Name"]],
            Xml.elem wTc [Xml.elem wT [Xml.text "Greeting"]],
            Xml.elem wTc [Xml.elem wT [Xml.text "Mode"]]],
           Xml.elem "w:tr" [Xml.elem wTc [Xml.elem wT [Xml.text "Ivanov I.I."]],
            Xml.elem wTc [Xml.elem wT [Xml.text "Birthday"]],
            Xml.elem wTc [Xml.elem wT [Xml.text "Dear"]]],
           Xml.elem "w:tr" [Xml.elem wTc [Xml.elem wT [Xml.text "Petrova A.B."]],
            Xml.elem wTc [Xml.elem wT [Xml.text "Anniversary"]],
            Xml.elem wTc [Xml.elem wT [Xml.text "Dear"]]]]]) =
        Except.ok res ∧
      res.writerIds.length =
        1 + [RowData.mk "Ivanov I.I." "Birthday" "Dear",
          RowData.mk "Petrova A.B." "Anniversary" "Dear"].length ∧
      [RowData.mk "Ivanov I.I." "Birthday" "Dear",
        RowData.mk "Petrova A.B." "Anniversary" "Dear"].length =
        (((Docx.mk [Table.mk
          [Xml.elem "w:tr" [Xml.elem wTc [Xml.elem wT [Xml.text "Name"]],
            Xml.elem wTc [Xml.elem wT [Xml.text "Greeting"]],
            Xml.elem wTc [Xml.elem wT [Xml.text "Mode"]]],
           Xml.elem "w:tr" [Xml.elem wTc [Xml.elem wT [Xml.text "Ivanov I.I."]],
            Xml.elem wTc [Xml.elem wT [Xml.text "Birthday"]],
            Xml.elem wTc [Xml.elem wT [Xml.text "Dear"]]],
           Xml.elem "w:tr" [Xml.elem wTc [Xml.elem wT [Xml.text "Petrova A.B."]],
            Xml.elem wTc [Xml.elem wT [Xml.text "Anniversary"]],
            Xml.elem wTc [Xml.elem wT [Xml.text "Dear"]]]]]).tables.getD 0
              (Table.mk [])).rows.drop 1).countP
          (fun tr => !(rowBlank tr)) ∧
      res.heap.lookup (res.writerIds.getD 0 0) =
        (Template.mk [PdfPage.mk 200 400 [],
          PdfPage.mk 200 400 [DrawOp.saveState]]).pages.getD 0 emptyPage ∧
      (∀ i, i < [RowData.mk "Ivanov I.I." "Birthday" "Dear",
          RowData.mk "Petrova A.B." "Anniversary" "Dear"].length →
        res.heap.lookup (res.writerIds.getD (i + 1) 0) =
          mergePage ((Template.mk [PdfPage.mk 200 400 [],
              PdfPage.mk 200 400 [DrawOp.saveState]]).pages.getD 1 emptyPage)
            (overlayPageFor 200 400
              ([RowData.mk "Ivanov I.I." "Birthday" "Dear",
                RowData.mk "Petrova A.B." "Anniversary" "Dear"].getD i
                (RowData.mk "" "" "")))) :=
  generate_pdf_emits_cover_then_one_page_per_record
    (Template.mk [PdfPage.mk 200 400 [], PdfPage.mk 200 400 [DrawOp.saveState]])
    (Docx.mk [Table.mk
      [Xml.elem "w:tr" [Xml.elem wTc [Xml.elem wT [Xml.text "Name"]],
        Xml.elem wTc [Xml.elem wT [Xml.text "Greeting"]],
        Xml.elem wTc [Xml.elem wT [Xml.text "Mode"]]],
       Xml.elem "w:tr" [Xml.elem wTc [Xml.elem wT [Xml.text "Ivanov I.I."]],
        Xml.elem wTc [Xml.elem wT [Xml.text "Birthday"]],
        Xml.elem wTc [Xml.elem wT [Xml.text "Dear"]]],
       Xml.elem "w:tr" [Xml.elem wTc [Xml.elem wT [Xml.text "Petrova A.B."]],
        Xml.elem wTc [Xml.elem wT [Xml.text "Anniversary"]],
        Xml.elem wTc [Xml.elem wT [Xml.text "Dear"]]]]])
    [RowData.mk "Ivanov I.I." "Birthday" "Dear",
      RowData.mk "Petrova A.B." "Anniversary" "Dear"]
    rfl (by decide)

/-! ## Normalization: the source pipeline equals the spec rule -/

lemma pyIsSpace_space : pyIsSpace ' ' = true := by decide

lemma collapse_true_head :
    ∀ (l : List Char) (d : Char) (ds : List Char),
      collapseWsAux true l = d :: ds → pyIsSpace d = false := by
  intro l
  induction l with
  | nil => intro d ds h; exact absurd h (by simp [collapseWsAux])
  | cons c cs ih =>
    intro d ds h
    cases hsp : pyIsSpace c with
    | true =>
      rw [show collapseWsAux true (c :: cs) = collapseWsAux true cs from
        by simp [collapseWsAux, hsp]] at h
      exact ih d ds h
    | false =>
      rw [show collapseWsAux true (c :: cs) = c :: collapseWsAux false cs from
        by simp [collapseWsAux, hsp]] at h
      obtain ⟨rfl, -⟩ := List.cons.injEq .. ▸ h
      exact hsp

lemma trimLead_collapse_true (l : List Char) :
    trimLeadSp (collapseWsAux true l) = collapseWsAux true l := by
  cases hcl : collapseWsAux true l with
  | nil => rfl
  | cons d ds =>
    have hd := collapse_true_head l d ds hcl
    simp [trimLeadSp, List.dropWhile_cons, hd]

lemma trimLead_collapse_false (l : List Char) :
    trimLeadSp (collapseWsAux false l) = collapseWsAux true l := by
  induction l with
  | nil => rfl
  | cons c cs ih =>
    cases hsp : pyIsSpace c with
    | true =>
      rw [show collapseWsAux false (c :: cs) = ' ' :: collapseWsAux true cs
        from by simp [collapseWsAux, hsp]]
      rw [show collapseWsAux true (c :: cs) = collapseWsAux true cs from
        by simp [collapseWsAux, hsp]]
      rw [show trimLeadSp (' ' :: collapseWsAux true cs) =
        trimLeadSp (collapseWsAux true cs) from by
          simp [trimLeadSp, List.dropWhile_cons, pyIsSpace_space]]
      exact trimLead_collapse_true cs
    | false =>
      rw [show collapseWsAux false (c :: cs) = c :: collapseWsAux false cs
        from by simp [collapseWsAux, hsp]]
      rw [show collapseWsAux true (c :: cs) = c :: collapseWsAux false cs
        from by simp [collapseWsAux, hsp]]
      simp [trimLeadSp, List.dropWhile_cons, hsp]

lemma pySplitAux_ne_nil :
    ∀ (l acc : List Char), acc ≠ [] → pySplitAux l acc ≠ [] := by
  intro l
  induction l with
  | nil =>
    intro acc hne
    have hie : acc.isEmpty = false := by
      cases acc with
      | nil => exact absurd rfl hne
      | cons a as => rfl
    simp [pySplitAux, hie]
  | cons c cs ih =>
    intro acc hne
    have hie : acc.isEmpty = false := by
      cases acc with
      | nil => exact absurd rfl hne
      | cons a as => rfl
    cases hsp : pyIsSpace c with
    | true => simp [pySplitAux, hsp, hie]
    | false =>
      rw [show pySplitAux (c :: cs) acc = pySplitAux cs (c :: acc) from
        by simp [pySplitAux, hsp]]
      exact ih (c :: acc) (by simp)

lemma split_collapse_nil_iff :
    ∀ l : List Char, pySplitAux l [] = [] ↔ collapseWsAux true l = [] := by
  intro l
  induction l with
  | nil => simp [pySplitAux, collapseWsAux]
  | cons c cs ih =>
    cases hsp : pyIsSpace c with
    | true =>
      rw [show pySplitAux (c :: cs) [] = pySplitAux cs [] from
        by simp [pySplitAux, hsp]]
      rw [show collapseWsAux true (c :: cs) = collapseWsAux true cs from
        by simp [collapseWsAux, hsp]]
      exact ih
    | false =>
      rw [show pySplitAux (c :: cs) [] = pySplitAux cs [c] from
        by simp [pySplitAux, hsp]]
      rw [show collapseWsAux true (c :: cs) = c :: collapseWsAux false cs
        from by simp [collapseWsAux, hsp]]
      simp [pySplitAux_ne_nil cs [c] (by simp)]

lemma trimTrailSp_all_nonspace (m : List Char)
    (h : ∀ c ∈ m, pyIsSpace c = false) : trimTrailSp m = m := by
  unfold trimTrailSp
  cases hm : m.reverse with
  | nil =>
    have : m = [] := List.reverse_eq_nil_iff.mp hm
    subst this
    rfl
  | cons d ds =>
    have hd : pyIsSpace d = false :=
      h d (List.mem_reverse.mp (by rw [hm]; exact List.mem_cons_self d ds))
    rw [List.dropWhile_cons_of_neg (by simp [hd]), ← hm,
      List.reverse_reverse]

lemma trimTrailSp_eq_nil_iff (m : List Char) :
    trimTrailSp m = [] ↔ ∀ c ∈ m, pyIsSpace c = true := by
  unfold trimTrailSp
  rw [List.reverse_eq_nil_iff, List.dropWhile_eq_nil_iff]
  constructor
  · intro h c hc
    exact h c (List.mem_reverse.mpr hc)
  · intro h c hc
    exact h c (List.mem_reverse.mp hc)

lemma trimTrailSp_append (A X : List Char) (h : trimTrailSp X ≠ []) :
    trimTrailSp (A ++ X) = A ++ trimTrailSp X := by
  have hX : X.reverse.dropWhile pyIsSpace ≠ [] := by
    intro hc
    exact h (by unfold trimTrailSp; rw [hc]; rfl)
  unfold trimTrailSp
  rw [List.reverse_append, List.dropWhile_append]
  rw [if_neg (by simpa [List.isEmpty_iff] using hX)]
  rw [List.reverse_append, List.reverse_reverse]

/-- The split-and-join pipeline equals trimming the collapsed string, both
from the word-scanning state (flag true, empty accumulator) and from the
mid-word state. -/
lemma joinSp_split_eq_trim_collapse :
    ∀ l : List Char,
      (joinSp (pySplitAux l []) = trimTrailSp (collapseWsAux true l)) ∧
      (∀ acc, acc ≠ [] → (∀ c ∈ acc, pyIsSpace c = false) →
        joinSp (pySplitAux l acc) =
          trimTrailSp (acc.reverse ++ collapseWsAux false l)) := by
  intro l
  induction l with
  | nil =>
    constructor
    · rfl
    · intro acc hne hns
      have hie : acc.isEmpty = false := by
        cases acc with
        | nil => exact absurd rfl hne
        | cons a as => rfl
      rw [show pySplitAux [] acc = [acc.reverse] from by simp [pySplitAux, hie]]
      rw [show joinSp [acc.reverse] = acc.reverse from rfl]
      rw [show collapseWsAux false [] = [] from rfl, List.append_nil]
      exact (trimTrailSp_all_nonspace _
        (fun c hc => hns c (List.mem_reverse.mp hc))).symm
  | cons c cs ih =>
    obtain ⟨ihA, ihB⟩ := ih
    constructor
    · cases hsp : pyIsSpace c with
      | true =>
        rw [show pySplitAux (c :: cs) [] = pySplitAux cs [] from
          by simp [pySplitAux, hsp]]
        rw [show collapseWsAux true (c :: cs) = collapseWsAux true cs from
          by simp [collapseWsAux, hsp]]
        exact ihA
      | false =>
        rw [show pySplitAux (c :: cs) [] = pySplitAux cs [c] from
          by simp [pySplitAux, hsp]]
        rw [show collapseWsAux true (c :: cs) = c :: collapseWsAux false cs
          from by simp [collapseWsAux, hsp]]
        have hns1 : ∀ x ∈ [c], pyIsSpace x = false := by
          intro x hx
          rw [List.mem_singleton.mp hx]
          exact hsp
        simpa using ihB [c] (by simp) hns1
    · intro acc hne hns
      have hie : acc.isEmpty = false := by
        cases acc with
        | nil => exact absurd rfl hne
        | cons a as => rfl
      cases hsp : pyIsSpace c with
      | true =>
        rw [show pySplitAux (c :: cs) acc = acc.reverse :: pySplitAux cs []
          from by simp [pySplitAux, hsp, hie]]
        rw [show collapseWsAux false (c :: cs) = ' ' :: collapseWsAux true cs
          from by simp [collapseWsAux, hsp]]
        by_cases hE : pySplitAux cs [] = []
        · have hcol : collapseWsAux true cs = [] :=
            (split_collapse_nil_iff cs).mp hE
          rw [hE, hcol]
          rw [show joinSp [acc.reverse] = acc.reverse from rfl]
          unfold trimTrailSp
          rw [show (acc.reverse ++ [' ']).reverse = ' ' :: acc from by simp]
          rw [List.dropWhile_cons_of_pos (by simp [pyIsSpace_space])]
          cases acc with
          | nil => exact absurd rfl hne
          | cons a as =>
            rw [List.dropWhile_cons_of_neg
              (by simp [hns a (List.mem_cons_self a as)])]
        · have hcolne : collapseWsAux true cs ≠ [] := fun hc =>
            hE ((split_collapse_nil_iff cs).mpr hc)
          obtain ⟨w, ws', hws⟩ : ∃ w ws', pySplitAux cs [] = w :: ws' := by
            cases hq : pySplitAux cs [] with
            | nil => exact absurd hq hE
            | cons w ws' => exact ⟨w, ws', rfl⟩
          rw [hws]
          rw [show joinSp (acc.reverse :: w :: ws') =
            acc.reverse ++ ' ' :: joinSp (w :: ws') from rfl]
          have hX : trimTrailSp (collapseWsAux true cs) ≠ [] := by
            rw [Ne, trimTrailSp_eq_nil_iff]
            intro hall
            obtain ⟨d, ds, hd⟩ : ∃ d ds, collapseWsAux true cs = d :: ds := by
              cases hq : collapseWsAux true cs with
              | nil => exact absurd hq hcolne
              | cons d ds => exact ⟨d, ds, rfl⟩
            have h1 := collapse_true_head cs d ds hd
            have h2 := hall d (by rw [hd]; exact List.mem_cons_self d ds)
            simp [h1] at h2
          rw [show acc.reverse ++ ' ' :: collapseWsAux true cs =
            (acc.reverse ++ [' ']) ++ collapseWsAux true cs from by simp]
          rw [trimTrailSp_append _ _ hX, ← hws, ihA]
          simp
      | false =>
        rw [show pySplitAux (c :: cs) acc = pySplitAux cs (c :: acc) from
          by simp [pySplitAux, hsp]]
        rw [show collapseWsAux false (c :: cs) = c :: collapseWsAux false cs
          from by simp [collapseWsAux, hsp]]
        have hns1 : ∀ x ∈ c :: acc, pyIsSpace x = false := by
          intro x hx
          rcases List.mem_cons.mp hx with h | h
          · rw [h]
            exact hsp
          · exact hns x h
        rw [ihB (c :: acc) (by simp) hns1]
        congr 1
        simp

lemma pySplitAux_all_space :
    ∀ (sp : List Char), (∀ c ∈ sp, pyIsSpace c = true) →
      ∀ acc, pySplitAux sp acc = if acc.isEmpty then [] else [acc.reverse] := by
  intro sp
  induction sp with
  | nil => intro _ acc; rfl
  | cons d ds ih =>
    intro h acc
    have hd := h d (List.mem_cons_self d ds)
    have ihds := ih (fun c hc => h c (List.mem_cons_of_mem _ hc))
    cases acc with
    | nil =>
      rw [show pySplitAux (d :: ds) [] = pySplitAux ds [] from
        by simp [pySplitAux, hd]]
      simpa using ihds []
    | cons a as =>
      rw [show pySplitAux (d :: ds) (a :: as) =
        (a :: as).reverse :: pySplitAux ds [] from by simp [pySplitAux, hd]]
      rw [show pySplitAux ds [] = [] from by simpa using ihds []]
      rfl

lemma pySplitAux_append_space :
    ∀ (l sp acc : List Char), (∀ c ∈ sp, pyIsSpace c = true) →
      pySplitAux (l ++ sp) acc = pySplitAux l acc := by
  intro l
  induction l with
  | nil =>
    intro sp acc h
    rw [List.nil_append, pySplitAux_all_space sp h acc]
    rfl
  | cons c cs ih =>
    intro sp acc h
    rw [List.cons_append]
    cases hsp : pyIsSpace c with
    | true =>
      cases acc with
      | nil =>
        rw [show pySplitAux (c :: (cs ++ sp)) [] = pySplitAux (cs ++ sp) []
          from by simp [pySplitAux, hsp]]
        rw [show pySplitAux (c :: cs) [] = pySplitAux cs [] from
          by simp [pySplitAux, hsp]]
        exact ih sp [] h
      | cons a as =>
        rw [show pySplitAux (c :: (cs ++ sp)) (a :: as) =
          (a :: as).reverse :: pySplitAux (cs ++ sp) [] from
          by simp [pySplitAux, hsp]]
        rw [show pySplitAux (c :: cs) (a :: as) =
          (a :: as).reverse :: pySplitAux cs [] from by simp [pySplitAux, hsp]]
        rw [ih sp [] h]
    | false =>
      rw [show pySplitAux (c :: (cs ++ sp)) acc =
        pySplitAux (cs ++ sp) (c :: acc) from by simp [pySplitAux, hsp]]
      rw [show pySplitAux (c :: cs) acc = pySplitAux cs (c :: acc) from
        by simp [pySplitAux, hsp]]
      exact ih sp (c :: acc) h

lemma pySplitAux_trimLead (l : List Char) :
    pySplitAux (trimLeadSp l) [] = pySplitAux l [] := by
  induction l with
  | nil => rfl
  | cons c cs ih =>
    cases hsp : pyIsSpace c with
    | true =>
      rw [show trimLeadSp (c :: cs) = trimLeadSp cs from by
        unfold trimLeadSp
        exact List.dropWhile_cons_of_pos (by simp [hsp])]
      rw [show pySplitAux (c :: cs) [] = pySplitAux cs [] from
        by simp [pySplitAux, hsp]]
      exact ih
    | false =>
      rw [show trimLeadSp (c :: cs) = c :: cs from by
        unfold trimLeadSp
        exact List.dropWhile_cons_of_neg (by simp [hsp])]

lemma trimTrail_decomp (X : List Char) :
    X = trimTrailSp X ++ (X.reverse.takeWhile pyIsSpace).reverse := by
  unfold trimTrailSp
  conv_lhs => rw [← List.reverse_reverse X,
    ← List.takeWhile_append_dropWhile (p := pyIsSpace) (l := X.reverse)]
  rw [List.reverse_append]

lemma pySplitAux_trimTrail (X : List Char) :
    pySplitAux (trimTrailSp X) [] = pySplitAux X [] := by
  conv_rhs => rw [trimTrail_decomp X]
  rw [pySplitAux_append_space _ _ []
    (fun c hc => List.mem_takeWhile_imp (List.mem_reverse.mp hc))]

lemma pySplit_strip (l : List Char) :
    pySplitAux (pyStripList l) [] = pySplitAux l [] := by
  rw [show pyStripList l = trimTrailSp (trimLeadSp l) from rfl,
    pySplitAux_trimTrail, pySplitAux_trimLead]

/-- C3: the source normalization equals the spec rule — replace
non-breaking spaces by ordinary spaces, collapse each whitespace run to a
single ASCII space, trim both ends — and the two-space A nbsp nbsp B
two-space example normalizes to A space B. -/
theorem norm_replaces_nbsp_collapses_and_trims :
    (∀ s : String, _norm s = normSpec s) ∧
    _norm "  A\u00A0\u00A0B  " = "A B" := by
  constructor
  · intro s
    unfold _norm normSpec pySplit
    congr 1
    rw [pySplit_strip, (joinSp_split_eq_trim_collapse _).1,
      trimLead_collapse_false]
  · rfl
